import Mathlib

/-!
# Verification of the MIR movie search engine against its specification

Shallow embedding of the components of the MIR repository
(`Logic/core/...`) that the checked claims are about:

* the IMDb crawler's shared state and frontier dynamics (`crawler.py`),
* the evaluation metrics' DCG routines (`utility/evaluation.py`),
* the four inverted indexes and their add/remove operations (`indexer/index.py`),
* the vector-space and Okapi BM25 scorers (`utility/scorer.py`),
* spell correction (`spell_correction.py`),
* the near-duplicate detector's document shingling (`indexer/LSH.py`).

Python dicts are modelled as insertion-ordered association lists
(`PyDict`), which matches CPython semantics: insertion order is
preserved, setting an existing key updates it in place, deleting a key
keeps every other entry's position.  Python sets of strings are
modelled as duplicate-free lists (for the crawler's `added_ids`, where
only membership matters) or as `Finset String` (for shingle sets,
where cardinalities matter).  Python floats are modelled as `ℚ` where
the code only does field arithmetic and as `ℝ` where `np.log` appears.
Python exceptions are modelled with `Except String`.
-/

/-- An insertion-ordered Python dict with string keys. -/
abbrev PyDict (α : Type) : Type := List (String × α)

/-- Python `k in d` for a dict `d`. -/
def containsKey (d : PyDict α) (k : String) : Bool :=
  d.any (fun p => p.1 == k)

/-- Python `d.get(k)`: the value at `k`, if any. -/
def pyGet? (d : PyDict α) (k : String) : Option α :=
  (d.find? (fun p => p.1 == k)).map Prod.snd

/-- Python `d.get(k, v₀)`. -/
def pyGetD (d : PyDict α) (k : String) (v₀ : α) : α :=
  (pyGet? d k).getD v₀

/-- Python `d[k] = v`: update the entry in place when the key exists,
append it otherwise (CPython keeps insertion order). -/
def pySet (d : PyDict α) (k : String) (v : α) : PyDict α :=
  if containsKey d k then d.map (fun p => if p.1 == k then (k, v) else p)
  else d ++ [(k, v)]

/-- Python `del d[k]`: drop the entry, keeping every other entry's position. -/
def pyDel (d : PyDict α) (k : String) : PyDict α :=
  d.filter (fun p => p.1 != k)

/-- Python `s.add(x)` on a set modelled as a duplicate-free list. -/
def pySetInsert (s : List String) (x : String) : List String :=
  if x ∈ s then s else s ++ [x]

/-- Split a string at every character satisfying `p`, keeping empty
pieces, as Python `str.split(sep)` does. -/
def splitPred (p : Char → Bool) (s : String) : List String :=
  (s.toList.foldr (fun ch acc =>
    match acc with
    | g :: gs => if p ch then [] :: g :: gs else (ch :: g) :: gs
    | [] => [[ch]]) [[]]).map String.mk

/-- Python `str.split(sep)` for a one-character separator: split at every
occurrence, keeping empty pieces. -/
def pySplit (sep : Char) (s : String) : List String :=
  splitPred (fun c => c == sep) s

/-- Python `str.split()` with no argument: split on runs of whitespace,
dropping empty pieces. -/
def pySplitWs (s : String) : List String :=
  (splitPred (fun c => c.isWhitespace) s).filter (fun t => t != "")

/-- Python `str.lower()`: the sources only lower-case ASCII text. -/
def pyLower (s : String) : String :=
  String.mk (s.toList.map Char.toLower)

/-- Python `s[i:j]` for `0 ≤ i ≤ j` on a string. -/
def pySlice (s : String) (i j : ℕ) : String :=
  String.mk ((s.toList.drop i).take (j - i))

/-- Python `s[i]` on a string (claims only use it in bounds; the
3-letter scoring method codes are always indexed at 0, 1, 2). -/
def charAt (s : String) (i : ℕ) : Char :=
  s.toList.getD i 'x'

/-!
## Crawler (`Logic/core/crawler.py`, class `IMDbCrawler`)

The page-extraction methods (`get_title`, `get_stars`, ...) parse HTML
and JSON fetched over the network; the only extractor output that the
crawl-state dynamics reads back is `related_links` (plus the id taken
from the URL), so a fetched page is modelled as the list of related
links the parser would produce, and a `MovieRecord` keeps the two
fields `crawl_page_info` uses.  A `none` response stands for a non-200
status or a transport failure, which `crawl_page_info` drops.
-/

/-- The slice of a crawled movie dict that the crawler state reads:
its id and its related links. -/
structure MovieRecord where
  id : String
  related_links : List String
deriving DecidableEq, Repr

/-- What a successfully fetched (HTTP 200) movie page yields to
`crawl_page_info`: the related links extracted by `get_related_links`. -/
structure PageInfo where
  related_links : List String
deriving DecidableEq, Repr

/-- The crawler's shared state: `crawled` records, the FIFO frontier
`not_crawled`, and the `added_ids` set. -/
structure CrawlState where
  crawled : List MovieRecord
  not_crawled : List String
  added_ids : List String
deriving DecidableEq, Repr

/-- The crawler's state as `__init__` builds it. -/
def crawlInit : CrawlState := ⟨[], [], []⟩

/-- `IMDbCrawler.get_id_from_URL`: `URL.split('/')[4]`. -/
def get_id_from_URL (URL : String) : String :=
  (pySplit '/' URL).getD 4 ""

/-- Python `url not in self.crawled` inside `extract_top_250`:
`self.crawled` holds movie dicts, and a `str` never compares equal to a
dict, so the membership test is always `False`. -/
def strInRecordList (_url : String) (_records : List MovieRecord) : Bool :=
  false

/-- `IMDbCrawler.extract_top_250`, given the `href` attributes of the
anchors the CSS selector matched on the seed page: for each href,
rebuild the absolute URL from its path pieces, take its id, and when
the id is new, enqueue the URL and mark the id seen. -/
def extract_top_250 (hrefs : List String) (st : CrawlState) : CrawlState :=
  hrefs.foldl (fun s href =>
    let c := pySplit '/' href
    let url := "https://www.imdb.com/" ++ c.getD 1 "" ++ "/" ++ c.getD 2 ""
    let id := get_id_from_URL url
    if id ∉ s.added_ids ∧ ¬ strInRecordList url s.crawled then
      { s with not_crawled := s.not_crawled ++ [url],
               added_ids := pySetInsert s.added_ids id }
    else s) st

/-- `IMDbCrawler.crawl_page_info`: on a 200 response, append the
extracted movie to `crawled`, then for every related link not already
in the frontier, enqueue it and add its id to `added_ids`.  A failed
response leaves the state unchanged. -/
def crawl_page_info (st : CrawlState) (URL : String) (response : Option PageInfo) :
    CrawlState :=
  match response with
  | none => st
  | some page =>
    let movie : MovieRecord := { id := get_id_from_URL URL, related_links := page.related_links }
    let st1 := { st with crawled := st.crawled ++ [movie] }
    page.related_links.foldl (fun s link =>
      if link ∈ s.not_crawled then s
      else { s with not_crawled := s.not_crawled ++ [link],
                    added_ids := pySetInsert s.added_ids (get_id_from_URL link) }) st1

/-- The crawl states reachable from a fresh crawler: `extract_top_250`
on any seed anchors, and the `start_crawling` loop step that pops the
frontier head and runs `crawl_page_info` on it with any network
response. -/
inductive Reachable : CrawlState → Prop
  | init : Reachable crawlInit
  | seed (hrefs : List String) (st : CrawlState) :
      Reachable st → Reachable (extract_top_250 hrefs st)
  | step (URL : String) (rest : List String) (response : Option PageInfo)
      (st : CrawlState) : Reachable st → st.not_crawled = URL :: rest →
      Reachable (crawl_page_info { st with not_crawled := rest } URL response)

/-- Seed URL of the concrete duplicate-id crawl session. -/
def urlA : String := "https://www.imdb.com/title/tt0000001"

/-- Second URL of the concrete duplicate-id crawl session. -/
def urlB : String := "https://www.imdb.com/title/tt0000002"

/-- State after seeding with one top-chart anchor for `urlA`. -/
def crawlS1 : CrawlState := extract_top_250 ["/title/tt0000001/?ref"] crawlInit

/-- State after crawling `urlA`, whose page relates to `urlB`. -/
def crawlS2 : CrawlState :=
  crawl_page_info { crawlS1 with not_crawled := [] } urlA (some ⟨[urlB]⟩)

/-- State after crawling `urlB`, whose page relates back to `urlA`:
`urlA` is no longer in `not_crawled`, so it is re-enqueued. -/
def crawlS3 : CrawlState :=
  crawl_page_info { crawlS2 with not_crawled := [] } urlB (some ⟨[urlA]⟩)

/-- State after crawling `urlA` a second time. -/
def crawlS4 : CrawlState :=
  crawl_page_info { crawlS3 with not_crawled := [] } urlA (some ⟨[]⟩)

/-!
## Evaluation metrics (`Logic/core/utility/evaluation.py`, class `Evaluation`)

The class body defines `calculate_DCG` twice.  The second definition
(two parameters, `actual`/`predicted`) overwrites the first (one
parameter, `relevance_scores`) in the class dict, so every call to
`self.calculate_DCG` resolves to the two-parameter method.  Inside it,
`self.calculate_DCG(relevance_scores)` therefore calls the
two-parameter method with a single argument, which raises a
`TypeError` as soon as there is at least one query.
-/

/-- The first (shadowed) `Evaluation.calculate_DCG` definition: its first
entry undiscounted, every later 0-based index `i` discounted by `i + 1`.
It is unreachable at runtime because the second definition below
replaces it in the class dict. -/
def calculate_DCG_shadowed (relevance_scores : List ℚ) : ℚ :=
  let dcg := relevance_scores.headD 0
  (List.range' 1 (relevance_scores.length - 1)).foldl
    (fun dcg i => dcg + relevance_scores.getD i 0 / ((i : ℚ) + 1)) dcg

/-- The second `Evaluation.calculate_DCG` definition, the one the class
dict keeps.  Its inner call `self.calculate_DCG(relevance_scores)`
resolves to this same two-parameter method, so it is missing its second
positional argument and raises a `TypeError` on the first loop
iteration. -/
def calculate_DCG (actual predicted : List (List String)) : Except String ℚ :=
  let total_queries := actual.length
  match (List.range total_queries).foldlM (fun (total_DCG : ℚ) i =>
      let relevant_documents := actual.getD i []
      let retrieved_documents := predicted.getD i []
      let relevance_scores : List ℚ :=
        retrieved_documents.map (fun doc => if doc ∈ relevant_documents then 1 else 0)
      let _ := relevance_scores
      let _ := total_DCG
      (Except.error "TypeError: calculate_DCG missing 1 required positional argument" :
        Except String ℚ)) (0 : ℚ) with
  | Except.error e => Except.error e
  | Except.ok total_DCG =>
    Except.ok (if 0 < total_queries then total_DCG / (total_queries : ℚ) else 0)

/-!
## Indexing core (`Logic/core/indexer/index.py`, class `Index`)

The four indexes are `documents` (id → record), and `stars`, `genres`,
`summaries` (term → {doc id → tf}).  The record type below carries the
fields the indexer reads.  `Index.index_stars` also appends every part
to `self.terms` (the `terms.json` vocabulary snapshot); that list is
not part of any index and is elided here.
-/

/-- A preprocessed movie record as `index_stars` reads it: `doc['stars']`
is either a list or Python `None` (the value `get_imdb_instance`
initializes the field to). -/
structure RawDoc where
  id : String
  stars : Option (List String)
deriving DecidableEq, Repr

/-- `Index.index_stars` on a batch of documents, written as structural
recursion over the batch: the `if stars is None: return star_indexes`
line ends the whole loop, returning whatever has been built so far. -/
def index_stars_go : List RawDoc → PyDict (PyDict ℕ) → PyDict (PyDict ℕ)
  | [], star_indexes => star_indexes
  | doc :: rest, star_indexes =>
    match doc.stars with
    | none => star_indexes
    | some stars =>
      let parts := stars.flatMap (fun star => (pySplitWs star).map pyLower)
      let star_indexes := parts.foldl (fun idx part =>
          let idx := if containsKey idx part then idx else idx ++ [(part, [])]
          pySet idx part (pySet (pyGetD idx part []) doc.id (parts.count part))) star_indexes
      index_stars_go rest star_indexes

/-- `Index.index_stars` starting from the empty dict. -/
def index_stars (documents : List RawDoc) : PyDict (PyDict ℕ) :=
  index_stars_go documents []

/-- A document as `add_document_to_index` reads it: the synthetic
record's three fields are lists (a Python `None` in any of them would
make the method raise, a case no claim exercises). -/
structure Doc where
  id : String
  stars : List String
  genres : List String
  summaries : List String
deriving DecidableEq, Repr

/-- The four indexes of an `Index` object. -/
structure IndexState where
  documents : PyDict Doc
  stars : PyDict (PyDict ℕ)
  genres : PyDict (PyDict ℕ)
  summaries : PyDict (PyDict ℕ)
deriving DecidableEq, Repr

/-- The synthetic record of `check_add_remove_is_correct`. -/
def dummy_document : Doc :=
  { id := "100", stars := ["tim", "henry"], genres := ["drama", "crime"],
    summaries := ["good"] }

/-- The loop body `add_document_to_index` runs once per term on the
stars and genres indexes: create an empty posting dict when the term is
new, then set the id's tf. -/
def addPosting (term id : String) (c : ℕ) (idx : PyDict (PyDict ℕ)) : PyDict (PyDict ℕ) :=
  let idx := if containsKey idx term then idx else idx ++ [(term, [])]
  pySet idx term (pySet (pyGetD idx term []) id c)

/-- The loop body `add_document_to_index` runs once per summary word:
like `addPosting`, but the tf is only written when the id has no entry
yet. -/
def addPostingOnce (term id : String) (c : ℕ) (idx : PyDict (PyDict ℕ)) :
    PyDict (PyDict ℕ) :=
  let idx := if containsKey idx term then idx else idx ++ [(term, [])]
  if containsKey (pyGetD idx term []) id then idx
  else pySet idx term (pySet (pyGetD idx term []) id c)

/-- `Index.add_document_to_index`.  The method stores the record dict in
the documents index and then lower-cases `document['genres']` in place,
mutating the stored dict as well, so the stored record carries the
lower-cased genres. -/
def add_document_to_index (document : Doc) (S : IndexState) : IndexState :=
  let id := document.id
  let genres := document.genres.map pyLower
  let documents := pySet S.documents id { document with genres := genres }
  let stars_parts := document.stars.flatMap (fun star => (pySplitWs star).map pyLower)
  let stars := stars_parts.foldl (fun idx star =>
      addPosting star id (stars_parts.count star) idx) S.stars
  let genresIdx := genres.foldl (fun idx genre =>
      addPosting genre id (genres.count genre) idx) S.genres
  let summaries := document.summaries.foldl (fun idx summary =>
      let words := pySplitWs summary
      words.foldl (fun idx word => addPostingOnce word id (words.count word) idx) idx)
    S.summaries
  { documents := documents, stars := stars, genres := genresIdx, summaries := summaries }

/-- The per-field block of `Index.remove_document_from_index`: collect
into `to_delete` every term whose posting dict contains the id, then
delete the id from each such posting dict (the emptied dicts are kept).
The source repeats this block verbatim for stars, genres and
summaries. -/
def removeFromField (document_id : String) (F : PyDict (PyDict ℕ)) : PyDict (PyDict ℕ) :=
  let to_delete := (F.filter (fun p => containsKey p.2 document_id)).map Prod.fst
  to_delete.foldl (fun F2 key =>
    pySet F2 key (pyDel (pyGetD F2 key []) document_id)) F

/-- `Index.remove_document_from_index`. -/
def remove_document_from_index (document_id : String) (S : IndexState) : IndexState :=
  let documents :=
    if containsKey S.documents document_id then pyDel S.documents document_id
    else S.documents
  { documents := documents,
    stars := removeFromField document_id S.stars,
    genres := removeFromField document_id S.genres,
    summaries := removeFromField document_id S.summaries }

/-- The empty starting index state. -/
def emptyIndexState : IndexState := ⟨[], [], [], []⟩

/-!
## Scorer (`Logic/core/utility/scorer.py`, class `Scorer`)

`self.index` is one field's inverted index (term → {doc id → tf}),
`self.N` the document count.  `np.log` is modelled by `Real.log`, so
the scorer lives over `ℝ`.  `get_idf` memoizes its result in
`self.idf`; the cache is write-once and only ever holds the value the
pure computation returns, so it is elided.
-/

/-- `np.linalg.norm` of a vector. -/
noncomputable def np_norm (v : List ℝ) : ℝ :=
  Real.sqrt (v.map (fun x => x ^ 2)).sum

/-- `np.dot` of two vectors. -/
def np_dot (v w : List ℝ) : ℝ :=
  (List.zipWith (fun a b => a * b) v w).sum

/-- `Scorer.get_idf`: `ln(N / df)`, and `0` when the term has no
postings. -/
noncomputable def get_idf (index : PyDict (PyDict ℕ)) (N : ℕ) (term : String) : ℝ :=
  let fq := (pyGetD index term []).length
  if fq = 0 then 0 else Real.log ((N : ℝ) / (fq : ℝ))

/-- `Scorer.get_vector_space_model_score`.  The three parallel lists are
built over the query terms; every tf is offset by `+0.1`; each side
then applies its 3-letter method.  On the query side the second-letter
step multiplies `query_term_freq` (the offset raw tf vector), not
`query_score` (the output of the first-letter step) — transcribed from
the source as-is.  Python's list/ndarray distinction (the in-place
division by the norm raises on a plain list when both earlier steps
left one) is not modelled; every claim stays on array paths. -/
noncomputable def get_vector_space_model_score (index : PyDict (PyDict ℕ)) (N : ℕ)
    (query : List String) (query_tfs : PyDict ℕ) (document_id : String)
    (document_method query_method : String) : ℝ :=
  let term_freq : List ℝ := query.map (fun term =>
    if containsKey index term && containsKey (pyGetD index term []) document_id then
      ((pyGetD (pyGetD index term []) document_id 0 : ℕ) : ℝ)
    else 0)
  let idf : List ℝ := query.map (fun term => get_idf index N term)
  let query_term_freq : List ℝ := query.map (fun term => ((pyGetD query_tfs term 0 : ℕ) : ℝ))
  let term_freq := term_freq.map (fun x => x + 0.1)
  let doc_score :=
    if charAt document_method 0 = 'n' then term_freq
    else term_freq.map (fun x => Real.log x + 1)
  let doc_score :=
    if charAt document_method 1 = 't' then List.zipWith (fun a b => a * b) doc_score idf
    else doc_score
  let doc_score :=
    if charAt document_method 2 = 'c' then doc_score.map (fun x => x / np_norm doc_score)
    else doc_score
  let query_term_freq := query_term_freq.map (fun x => x + 0.1)
  let query_score :=
    if charAt query_method 0 = 'n' then query_term_freq
    else query_term_freq.map (fun x => Real.log x + 1)
  let query_score :=
    if charAt query_method 1 = 't' then List.zipWith (fun a b => a * b) query_term_freq idf
    else query_score
  let query_score :=
    if charAt query_method 2 = 'c' then query_score.map (fun x => x / np_norm query_score)
    else query_score
  np_dot doc_score query_score

/-- The claim's reading of `get_vector_space_model_score`: identical
except that the query-side second-letter step multiplies the weight
vector produced by the query-side first-letter step by idf. -/
noncomputable def get_vector_space_model_score_claim (index : PyDict (PyDict ℕ)) (N : ℕ)
    (query : List String) (query_tfs : PyDict ℕ) (document_id : String)
    (document_method query_method : String) : ℝ :=
  let term_freq : List ℝ := query.map (fun term =>
    if containsKey index term && containsKey (pyGetD index term []) document_id then
      ((pyGetD (pyGetD index term []) document_id 0 : ℕ) : ℝ)
    else 0)
  let idf : List ℝ := query.map (fun term => get_idf index N term)
  let query_term_freq : List ℝ := query.map (fun term => ((pyGetD query_tfs term 0 : ℕ) : ℝ))
  let term_freq := term_freq.map (fun x => x + 0.1)
  let doc_score :=
    if charAt document_method 0 = 'n' then term_freq
    else term_freq.map (fun x => Real.log x + 1)
  let doc_score :=
    if charAt document_method 1 = 't' then List.zipWith (fun a b => a * b) doc_score idf
    else doc_score
  let doc_score :=
    if charAt document_method 2 = 'c' then doc_score.map (fun x => x / np_norm doc_score)
    else doc_score
  let query_term_freq := query_term_freq.map (fun x => x + 0.1)
  let query_score :=
    if charAt query_method 0 = 'n' then query_term_freq
    else query_term_freq.map (fun x => Real.log x + 1)
  let query_score :=
    if charAt query_method 1 = 't' then List.zipWith (fun a b => a * b) query_score idf
    else query_score
  let query_score :=
    if charAt query_method 2 = 'c' then query_score.map (fun x => x / np_norm query_score)
    else query_score
  np_dot doc_score query_score

/-- `Scorer.get_okapi_bm25_score` with its constants `k = 1.2` and
`b = 0.75`.  `document_lengths[document_id]` is a plain Python lookup;
callers supply a length for every scored document, modelled with a
defaulted get. -/
noncomputable def get_okapi_bm25_score (index : PyDict (PyDict ℕ)) (N : ℕ)
    (query : List String) (document_id : String)
    (average_document_field_length : ℝ) (document_lengths : PyDict ℝ) : ℝ :=
  let k : ℝ := 1.2
  let b : ℝ := 0.75
  query.foldl (fun score term =>
    if containsKey index term && containsKey (pyGetD index term []) document_id then
      let freq : ℝ := ((pyGetD (pyGetD index term []) document_id 0 : ℕ) : ℝ)
      let denumerator := freq + k * (1 - b + b * pyGetD document_lengths document_id 0 /
        average_document_field_length)
      let numerator := get_idf index N term * freq * (k + 1)
      score + numerator / denumerator
    else score) 0

/-- The concrete one-term index of the scorer counterexample. -/
def vsmIndex : PyDict (PyDict ℕ) := [("a", [("d1", 1)])]

/-!
## Spell correction (`Logic/core/spell_correction.py`, class `SpellCorrection`)

Shingle sets are Python sets of strings, modelled as `Finset String`;
scores are exact rationals.  `nltk.word_tokenize` is an external
library routine; the spec describes `spell_check` as lower-casing and
tokenizing the query, modelled as whitespace tokenization (every claim
uses whitespace-separated alphabetic tokens, on which the two agree).
-/

/-- `SpellCorrection.shingle_word`: all overlapping length-`k`
substrings, or the word itself when it is shorter than `k`. -/
def shingle_word (word : String) (k : ℕ) : Finset String :=
  if word.length < k then {word}
  else ((List.range (word.length - k + 1)).map (fun i => pySlice word i (i + k))).toFinset

/-- `SpellCorrection.jaccard_score`, `0` when the union is empty. -/
def jaccard_score (first_set second_set : Finset String) : ℚ :=
  if (first_set ∪ second_set).card = 0 then 0
  else ((first_set ∩ second_set).card : ℚ) / ((first_set ∪ second_set).card : ℚ)

/-- The state `SpellCorrection.__init__` builds: word → shingle set and
word → corpus frequency, in corpus discovery order. -/
structure SpellCorrection where
  all_shingled_words : PyDict (Finset String)
  word_counter : PyDict ℕ
deriving DecidableEq

/-- `SpellCorrection.shingling_and_counting`: first sight of a word
registers its shingle set and a zero count, every sight increments the
count. -/
def shingling_and_counting (all_documents : List String) : SpellCorrection :=
  all_documents.foldl (fun sc doc =>
    (pySplitWs doc).foldl (fun sc word =>
      let sc :=
        if containsKey sc.all_shingled_words word then sc
        else { all_shingled_words := pySet sc.all_shingled_words word (shingle_word word 2),
               word_counter := pySet sc.word_counter word 0 }
      { sc with word_counter := pySet sc.word_counter word (pyGetD sc.word_counter word 0 + 1) })
      sc) ⟨[], []⟩

/-- Insert into a score-descending list, before the first entry whose
score is not larger: the insertion step of a stable descending sort. -/
def pyInsertDesc (x : String × ℚ) : List (String × ℚ) → List (String × ℚ)
  | [] => [x]
  | y :: ys => if y.2 ≤ x.2 then x :: y :: ys else y :: pyInsertDesc x ys

/-- Python `sorted(items, key=score, reverse=True)`: a stable descending
sort by score (CPython's sort is stable and `reverse=True` keeps equal
elements in insertion order), written as a stable insertion sort. -/
def pySortedDesc : List (String × ℚ) → List (String × ℚ)
  | [] => []
  | x :: xs => pyInsertDesc x (pySortedDesc xs)

/-- `SpellCorrection.find_nearest_words`: score the word against every
vocabulary word, sort descending, then read `sorted_words[i][0]` for
`i` in `range(5)` — an `IndexError` whenever the vocabulary has fewer
than 5 words (the partial candidate list is discarded by the raise). -/
def find_nearest_words (sc : SpellCorrection) (word : String) :
    Except String (List String) :=
  let shingled_word := shingle_word word 2
  let similarity_scores :=
    sc.all_shingled_words.map (fun p => (p.1, jaccard_score shingled_word p.2))
  let sorted_words := pySortedDesc similarity_scores
  if 5 ≤ sorted_words.length then Except.ok ((sorted_words.take 5).map Prod.fst)
  else Except.error "IndexError: list index out of range"

/-- The replacement `spell_check` picks for an out-of-vocabulary word:
re-score the top-5 candidates pairwise and keep the strictly best
(ties and all-zero scores leave the initial empty string). -/
def best_candidate (word : String) (nearest : List String) : String :=
  let shingles := shingle_word word 2
  (nearest.foldl (fun tp near =>
    let score := jaccard_score shingles (shingle_word near 2)
    if tp.1 < score then (score, near) else tp) ((0 : ℚ), "")).2

/-- The loop of `SpellCorrection.spell_check` over the query's tokens,
accumulating `final_result`: an in-vocabulary token is appended with no
separator; an out-of-vocabulary token appends a space and then its
replacement (or the token itself when there are no candidates — dead in
practice, since `find_nearest_words` raises first on small
vocabularies). -/
def spell_check_go (sc : SpellCorrection) : List String → String → Except String String
  | [], final_result => Except.ok final_result
  | word :: rest, final_result =>
    if containsKey sc.word_counter word then
      spell_check_go sc rest (final_result ++ word)
    else
      match find_nearest_words sc word with
      | Except.error e => Except.error e
      | Except.ok nearest =>
        if 0 < nearest.length then
          spell_check_go sc rest (final_result ++ " " ++ best_candidate word nearest)
        else
          spell_check_go sc rest (final_result ++ " " ++ word)

/-- Modelled from the spec: the external tokenizer (`nltk.word_tokenize`)
is not part of the repository; §4.3 says `spell_check` lower-cases and
tokenizes the query, modelled as whitespace tokenization. -/
def word_tokenize (s : String) : List String :=
  pySplitWs s

/-- `SpellCorrection.spell_check`. -/
def spell_check (sc : SpellCorrection) (query : String) : Except String String :=
  spell_check_go sc (word_tokenize (pyLower query)) ""

/-- The per-token output of `spell_check` in the amended format claim:
an in-vocabulary token passes through with no separator, an
out-of-vocabulary token contributes a leading space and then its
replacement (or itself when there are no candidates). -/
def spell_check_token (sc : SpellCorrection) (word : String) : Except String String :=
  if containsKey sc.word_counter word then Except.ok word
  else
    match find_nearest_words sc word with
    | Except.error e => Except.error e
    | Except.ok nearest =>
      if 0 < nearest.length then Except.ok (" " ++ best_candidate word nearest)
      else Except.ok (" " ++ word)

/-- Concatenation of the per-token outputs, the first error aborting. -/
def spell_check_tokens_join (sc : SpellCorrection) : List String → Except String String
  | [] => Except.ok ""
  | word :: rest =>
    match spell_check_token sc word, spell_check_tokens_join sc rest with
    | Except.error e, _ => Except.error e
    | Except.ok _, Except.error e => Except.error e
    | Except.ok s, Except.ok t => Except.ok (s ++ t)

/-- The amended format claim as a definition: `spell_check` is the
concatenation of per-token outputs. -/
def spell_check_spec (sc : SpellCorrection) (query : String) : Except String String :=
  spell_check_tokens_join sc (word_tokenize (pyLower query))

/-- The corpus with vocabulary {hello, world} of the format counterexample. -/
def helloWorldSC : SpellCorrection := shingling_and_counting ["hello world"]

/-- The empty-corpus spell corrector. -/
def emptySC : SpellCorrection := shingling_and_counting []

/-- A 5-word vocabulary sharing no 2-gram with the query token "qq". -/
def fiveWordSC : SpellCorrection := shingling_and_counting ["ab cd ef gh ij"]

/-!
## Near-duplicate detector (`Logic/core/indexer/LSH.py`, class `MinHashLSH`)
-/

/-- `MinHashLSH.shingle_document`: whitespace-tokenize and collect
`tokens[i] + " " + tokens[i+1]` for `i` in `range(len(tokens) - 1)`.
The `k` parameter appears in the signature only. -/
def shingle_document (document : String) (k : ℕ) : Finset String :=
  let tokens := pySplitWs document
  let _ := k
  ((List.range (tokens.length - 1)).map
    (fun i => tokens.getD i "" ++ " " ++ tokens.getD (i + 1) "")).toFinset

/-- The dedup invariant of the crawl state: every crawled record's id
and every frontier URL's id is in `added_ids`. -/
def CrawlInv (st : CrawlState) : Prop :=
  (∀ r ∈ st.crawled, r.id ∈ st.added_ids) ∧
  (∀ u ∈ st.not_crawled, get_id_from_URL u ∈ st.added_ids)

/-- A starting index state that already contains every term of the
synthetic record and no trace of id "100": the situation
`check_add_remove_is_correct` runs in on the crawled corpus. -/
def seededIndexState : IndexState :=
  { documents := [("1", ⟨"1", ["Tim Robbins"], ["drama", "crime"], ["a good movie"]⟩)],
    stars := [("tim", [("1", 1)]), ("robbins", [("1", 1)]), ("henry", [("2", 1)])],
    genres := [("drama", [("1", 1)]), ("crime", [("1", 1)])],
    summaries := [("good", [("1", 1)]), ("movie", [("1", 1)])] }

/-!
## Association-list dictionary lemmas

The Python-dict operations above, under the invariant CPython
guarantees (keys are unique), expressed as list equations.
-/

theorem containsKey_iff_mem_keys {α : Type} (d : PyDict α) (k : String) :
    containsKey d k = true ↔ k ∈ d.map Prod.fst := by
  simp only [containsKey, List.any_eq_true, beq_iff_eq, List.mem_map]

theorem containsKey_false_iff {α : Type} (d : PyDict α) (k : String) :
    containsKey d k = false ↔ ∀ p ∈ d, p.1 ≠ k := by
  simp only [containsKey, List.any_eq_false, beq_iff_eq]

theorem pyGet?_of_containsKey_false {α : Type} {d : PyDict α} {k : String}
    (h : containsKey d k = false) : pyGet? d k = none := by
  rw [containsKey_false_iff] at h
  have hf : d.find? (fun p => p.1 == k) = none := by
    rw [List.find?_eq_none]
    intro p hp
    simpa using h p hp
  rw [pyGet?, hf]
  rfl

theorem pyDel_of_containsKey_false {α : Type} {d : PyDict α} {k : String}
    (h : containsKey d k = false) : pyDel d k = d := by
  rw [containsKey_false_iff] at h
  simp only [pyDel]
  rw [List.filter_eq_self]
  intro p hp
  simpa using h p hp

theorem pySet_of_containsKey_false {α : Type} {d : PyDict α} {k : String} (v : α)
    (h : containsKey d k = false) : pySet d k v = d ++ [(k, v)] := by
  simp [pySet, h]

theorem pyDel_append_singleton {α : Type} {d : PyDict α} {k : String} (v : α)
    (h : containsKey d k = false) : pyDel (d ++ [(k, v)]) k = d := by
  simp only [pyDel, List.filter_append]
  rw [show (List.filter (fun p => p.1 != k) [(k, v)]) = [] by simp]
  rw [List.append_nil]
  exact pyDel_of_containsKey_false h

theorem pyDel_pySet_cancel {α : Type} {pl : PyDict α} {k : String} (v : α)
    (h : containsKey pl k = false) : pyDel (pySet pl k v) k = pl := by
  rw [pySet_of_containsKey_false v h, pyDel_append_singleton v h]

theorem containsKey_pySet_self {α : Type} (d : PyDict α) (k : String) (v : α) :
    containsKey (pySet d k v) k = true := by
  by_cases h : containsKey d k = true
  · rw [containsKey_iff_mem_keys]
    simp only [pySet, if_pos h]
    rw [containsKey_iff_mem_keys] at h
    rcases List.mem_map.mp h with ⟨p, hp, rfl⟩
    exact List.mem_map.mpr ⟨(p.1, v), List.mem_map.mpr ⟨p, hp, by simp⟩, rfl⟩
  · rw [pySet_of_containsKey_false v (by simpa using h)]
    rw [containsKey_iff_mem_keys]
    simp

theorem containsKey_keys {α : Type} (d : PyDict α) (k : String) :
    containsKey d k = (d.map Prod.fst).any (fun a => a == k) := by
  induction d with
  | nil => rfl
  | cons p t ih =>
    simp only [containsKey, List.any_cons, List.map_cons] at ih ⊢
    rw [ih]

theorem containsKey_eq_of_keys_eq {α β : Type} {d1 : PyDict α} {d2 : PyDict β}
    (h : d1.map Prod.fst = d2.map Prod.fst) (k : String) :
    containsKey d1 k = containsKey d2 k := by
  rw [containsKey_keys, containsKey_keys, h]

theorem pyGet?_of_mem_nodup {α : Type} {F : PyDict α}
    (hnd : (F.map Prod.fst).Nodup) {p : String × α} (hp : p ∈ F) :
    pyGet? F p.1 = some p.2 := by
  induction F with
  | nil => cases hp
  | cons q F2 ih =>
    rcases List.mem_cons.mp hp with rfl | hp2
    · simp [pyGet?, List.find?_cons_of_pos]
    · have hne : q.1 ≠ p.1 := by
        intro he
        have : p.1 ∈ F2.map Prod.fst := List.mem_map.mpr ⟨p, hp2, rfl⟩
        rw [← he] at this
        exact (List.nodup_cons.mp (by simpa using hnd)).1 this
      have := ih (List.nodup_cons.mp (by simpa using hnd)).2 hp2
      simpa [pyGet?, List.find?_cons_of_neg, hne] using this

theorem eq_of_mem_nodup_same_key {α : Type} {F : PyDict α}
    (hnd : (F.map Prod.fst).Nodup) {p q : String × α} (hp : p ∈ F) (hq : q ∈ F)
    (hk : p.1 = q.1) : p = q := by
  have h1 := pyGet?_of_mem_nodup hnd hp
  have h2 := pyGet?_of_mem_nodup hnd hq
  rw [hk, h2] at h1
  exact Prod.ext hk (Option.some.inj h1).symm

theorem keys_map_update {α : Type} (F : PyDict α) (k : String) (f : α → α) :
    (F.map (fun p => if p.1 = k then (k, f p.2) else p)).map Prod.fst =
    F.map Prod.fst := by
  rw [List.map_map]
  apply List.map_congr_left
  intro p _
  by_cases h : p.1 = k <;> simp [h]

theorem pySet_lookup_map {α : Type} {F : PyDict α} {k : String}
    (hnd : (F.map Prod.fst).Nodup) (hc : containsKey F k = true) (f : α → α) (v₀ : α) :
    pySet F k (f (pyGetD F k v₀)) =
    F.map (fun p => if p.1 = k then (k, f p.2) else p) := by
  rcases List.mem_map.mp ((containsKey_iff_mem_keys F k).mp hc) with ⟨q, hq, rfl⟩
  have hv : pyGetD F q.1 v₀ = q.2 := by
    rw [pyGetD, pyGet?_of_mem_nodup hnd hq]
    rfl
  rw [hv]
  simp only [pySet, if_pos hc]
  apply List.map_congr_left
  intro p hp
  by_cases h : p.1 = q.1
  · have : p = q := eq_of_mem_nodup_same_key hnd hp hq h
    subst this
    simp
  · simp [h]

theorem mem_of_pyGet? {α : Type} {F : PyDict α} {k : String} {v : α}
    (h : pyGet? F k = some v) : (k, v) ∈ F := by
  simp only [pyGet?, Option.map_eq_some'] at h
  obtain ⟨p, hp, rfl⟩ := h
  have hm := List.mem_of_find?_eq_some hp
  have hk : p.1 = k := by simpa using List.find?_some hp
  rw [← hk]
  exact hm

theorem containsKey_of_pyGet? {α : Type} {F : PyDict α} {k : String} {v : α}
    (h : pyGet? F k = some v) : containsKey F k = true :=
  (containsKey_iff_mem_keys F k).mpr (List.mem_map.mpr ⟨(k, v), mem_of_pyGet? h, rfl⟩)

/-!
## Crawler invariant lemmas
-/

theorem mem_pySetInsert_self (s : List String) (x : String) : x ∈ pySetInsert s x := by
  unfold pySetInsert
  split
  · assumption
  · simp

theorem mem_pySetInsert_of_mem {s : List String} {y : String} (x : String) (h : y ∈ s) :
    y ∈ pySetInsert s x := by
  unfold pySetInsert
  split
  · exact h
  · simp [h]

theorem extract_top_250_preserves_inv : ∀ (hrefs : List String) (st : CrawlState),
    CrawlInv st → CrawlInv (extract_top_250 hrefs st) := by
  intro hrefs
  unfold extract_top_250
  induction hrefs with
  | nil => intro st h; exact h
  | cons href rest ih =>
    intro st h
    rw [List.foldl_cons]
    apply ih
    dsimp only
    split
    · constructor
      · intro r hr
        exact mem_pySetInsert_of_mem _ (h.1 r hr)
      · intro u hu
        rcases List.mem_append.mp hu with hu | hu
        · exact mem_pySetInsert_of_mem _ (h.2 u hu)
        · simp only [List.mem_singleton] at hu
          subst hu
          exact mem_pySetInsert_self _ _
    · exact h

theorem related_links_fold_preserves_inv : ∀ (links : List String) (s : CrawlState),
    CrawlInv s →
    CrawlInv (links.foldl (fun s link =>
      if link ∈ s.not_crawled then s
      else { s with not_crawled := s.not_crawled ++ [link],
                    added_ids := pySetInsert s.added_ids (get_id_from_URL link) }) s) := by
  intro links
  induction links with
  | nil => intro s h; exact h
  | cons link rest ih =>
    intro s h
    rw [List.foldl_cons]
    apply ih
    dsimp only
    split
    · exact h
    · constructor
      · intro r hr
        exact mem_pySetInsert_of_mem _ (h.1 r hr)
      · intro u hu
        rcases List.mem_append.mp hu with hu | hu
        · exact mem_pySetInsert_of_mem _ (h.2 u hu)
        · simp only [List.mem_singleton] at hu
          subst hu
          exact mem_pySetInsert_self _ _

/-!
## Indexer lemmas
-/

theorem index_stars_go_append (d : RawDoc) (hd : d.stars = none) (post : List RawDoc) :
    ∀ (pre : List RawDoc) (acc : PyDict (PyDict ℕ)),
      index_stars_go (pre ++ d :: post) acc = index_stars_go pre acc := by
  intro pre
  induction pre with
  | nil => intro acc; simp [index_stars_go, hd]
  | cons p rest ih =>
    intro acc
    simp only [List.cons_append, index_stars_go]
    cases p.stars with
    | none => rfl
    | some stars => exact ih _

theorem foldDel_eq_map (id : String) : ∀ (L : List String) (G : PyDict (PyDict ℕ)),
    (G.map Prod.fst).Nodup → (∀ k ∈ L, containsKey G k = true) → L.Nodup →
    L.foldl (fun F2 key => pySet F2 key (pyDel (pyGetD F2 key []) id)) G =
    G.map (fun p => if p.1 ∈ L then (p.1, pyDel p.2 id) else p) := by
  intro L
  induction L with
  | nil =>
    intro G _ _ _
    simp
  | cons k L ih =>
    intro G hnd hL hLnd
    rw [List.foldl_cons]
    have hck : containsKey G k = true := hL k (List.mem_cons_self _ _)
    rw [pySet_lookup_map hnd hck (fun pl => pyDel pl id) []]
    have hkeys := keys_map_update G k (fun pl => pyDel pl id)
    have hnd2 : ((G.map (fun p => if p.1 = k then (k, pyDel p.2 id) else p)).map
        Prod.fst).Nodup := by
      rw [hkeys]; exact hnd
    have hL2 : ∀ k' ∈ L,
        containsKey (G.map (fun p => if p.1 = k then (k, pyDel p.2 id) else p)) k' = true := by
      intro k' hk'
      rw [containsKey_eq_of_keys_eq hkeys k']
      exact hL k' (List.mem_cons_of_mem _ hk')
    rw [ih _ hnd2 hL2 (List.nodup_cons.mp hLnd).2]
    rw [List.map_map]
    apply List.map_congr_left
    intro p hp
    have hknotinL : k ∉ L := (List.nodup_cons.mp hLnd).1
    by_cases h : p.1 = k
    · subst h
      simp [Function.comp, hknotinL]
    · simp only [Function.comp, if_neg h, List.mem_cons]
      by_cases h2 : p.1 ∈ L
      · rw [if_pos h2, if_pos (Or.inr h2)]
      · rw [if_neg h2, if_neg (by rintro (hc | hc); exact h hc; exact h2 hc)]

theorem removeFromField_eq_map (id : String) (G : PyDict (PyDict ℕ))
    (hnd : (G.map Prod.fst).Nodup) :
    removeFromField id G =
    G.map (fun p => if containsKey p.2 id = true then (p.1, pyDel p.2 id) else p) := by
  unfold removeFromField
  have hsub : ∀ k ∈ (G.filter (fun p => containsKey p.2 id)).map Prod.fst,
      containsKey G k = true := by
    intro k hk
    rcases List.mem_map.mp hk with ⟨p, hp, rfl⟩
    exact (containsKey_iff_mem_keys G p.1).mpr
      (List.mem_map.mpr ⟨p, List.mem_of_mem_filter hp, rfl⟩)
  have hLnd : ((G.filter (fun p => containsKey p.2 id)).map Prod.fst).Nodup :=
    ((List.filter_sublist _).map _).nodup hnd
  rw [foldDel_eq_map id _ G hnd hsub hLnd]
  apply List.map_congr_left
  intro p hp
  have hiff : p.1 ∈ (G.filter (fun p => containsKey p.2 id)).map Prod.fst ↔
      containsKey p.2 id = true := by
    constructor
    · intro hmem
      rcases List.mem_map.mp hmem with ⟨q, hq, hq1⟩
      have hqG := List.mem_of_mem_filter hq
      have hqc := List.of_mem_filter hq
      have : q = p := eq_of_mem_nodup_same_key hnd hqG hp hq1
      rwa [this] at hqc
    · intro hc
      exact List.mem_map.mpr ⟨p, List.mem_filter.mpr ⟨hp, hc⟩, rfl⟩
  by_cases h : containsKey p.2 id = true
  · rw [if_pos (hiff.mpr h), if_pos h]
  · rw [if_neg (fun hc => h (hiff.mp hc)), if_neg h]

theorem addPosting_eq_map {F : PyDict (PyDict ℕ)} {t : String} (id : String) (c : ℕ)
    (hnd : (F.map Prod.fst).Nodup) (hc : containsKey F t = true) :
    addPosting t id c F =
    F.map (fun p => if p.1 = t then (t, pySet p.2 id c) else p) := by
  unfold addPosting
  simp only [if_pos hc]
  exact pySet_lookup_map hnd hc (fun pl => pySet pl id c) []

theorem posting_not_contains {F : PyDict (PyDict ℕ)} {t id : String}
    (hno : ∀ p ∈ F, containsKey p.2 id = false) :
    containsKey (pyGetD F t []) id = false := by
  rw [pyGetD]
  cases hg : pyGet? F t with
  | none => simp [containsKey]
  | some pl => exact hno (t, pl) (mem_of_pyGet? hg)

theorem addPostingOnce_eq_addPosting {F : PyDict (PyDict ℕ)} {t : String} (id : String)
    (c : ℕ) (hc : containsKey F t = true)
    (hno : ∀ p ∈ F, containsKey p.2 id = false) :
    addPostingOnce t id c F = addPosting t id c F := by
  unfold addPostingOnce addPosting
  simp only [if_pos hc]
  rw [if_neg]
  rw [posting_not_contains hno]
  simp

theorem field_restore_two (F : PyDict (PyDict ℕ)) (t1 t2 : String) (c1 c2 : ℕ)
    (hnd : (F.map Prod.fst).Nodup)
    (hno : ∀ p ∈ F, containsKey p.2 "100" = false)
    (h12 : t1 ≠ t2)
    (h1 : containsKey F t1 = true) (h2 : containsKey F t2 = true) :
    removeFromField "100" (addPosting t2 "100" c2 (addPosting t1 "100" c1 F)) = F := by
  rw [addPosting_eq_map "100" c1 hnd h1]
  have hkeys1 := keys_map_update F t1 (fun pl => pySet pl "100" c1)
  have hnd1 : ((F.map fun p =>
      if p.1 = t1 then (t1, pySet p.2 "100" c1) else p).map Prod.fst).Nodup := by
    rw [hkeys1]; exact hnd
  have hc2' : containsKey
      (F.map fun p => if p.1 = t1 then (t1, pySet p.2 "100" c1) else p) t2 = true := by
    rw [containsKey_eq_of_keys_eq hkeys1]; exact h2
  rw [addPosting_eq_map "100" c2 hnd1 hc2', List.map_map]
  have hkeysG : ((F.map ((fun p => if p.1 = t2 then (t2, pySet p.2 "100" c2) else p) ∘
      (fun p => if p.1 = t1 then (t1, pySet p.2 "100" c1) else p))).map Prod.fst) =
      F.map Prod.fst := by
    rw [List.map_map]
    apply List.map_congr_left
    intro p _
    by_cases e1 : p.1 = t1
    · simp [Function.comp, e1, h12, Ne.symm h12]
    · by_cases e2 : p.1 = t2
      · simp [Function.comp, e1, e2, Ne.symm h12]
      · simp [Function.comp, e1, e2]
  have hndG : ((F.map ((fun p => if p.1 = t2 then (t2, pySet p.2 "100" c2) else p) ∘
      (fun p => if p.1 = t1 then (t1, pySet p.2 "100" c1) else p))).map Prod.fst).Nodup := by
    rw [hkeysG]; exact hnd
  rw [removeFromField_eq_map "100" _ hndG, List.map_map]
  conv_rhs => rw [← List.map_id F]
  apply List.map_congr_left
  intro p hp
  by_cases e1 : p.1 = t1
  · have : ((fun p => if containsKey p.2 "100" = true then (p.1, pyDel p.2 "100") else p) ∘
        (fun p => if p.1 = t2 then (t2, pySet p.2 "100" c2) else p) ∘
        (fun p => if p.1 = t1 then (t1, pySet p.2 "100" c1) else p)) p =
        (t1, pyDel (pySet p.2 "100" c1) "100") := by
      simp [Function.comp, e1, Ne.symm h12, h12, containsKey_pySet_self]
    rw [this, pyDel_pySet_cancel c1 (hno p hp)]
    rw [id_eq, ← e1]
  · by_cases e2 : p.1 = t2
    · have : ((fun p => if containsKey p.2 "100" = true then (p.1, pyDel p.2 "100") else p) ∘
          (fun p => if p.1 = t2 then (t2, pySet p.2 "100" c2) else p) ∘
          (fun p => if p.1 = t1 then (t1, pySet p.2 "100" c1) else p)) p =
          (t2, pyDel (pySet p.2 "100" c2) "100") := by
        simp [Function.comp, e1, e2, Ne.symm h12, containsKey_pySet_self]
      rw [this, pyDel_pySet_cancel c2 (hno p hp)]
      rw [id_eq, ← e2]
    · simp [Function.comp, e1, e2, hno p hp]

theorem field_restore_once (F : PyDict (PyDict ℕ)) (t : String) (c : ℕ)
    (hnd : (F.map Prod.fst).Nodup)
    (hno : ∀ p ∈ F, containsKey p.2 "100" = false)
    (h1 : containsKey F t = true) :
    removeFromField "100" (addPostingOnce t "100" c F) = F := by
  rw [addPostingOnce_eq_addPosting "100" c h1 hno, addPosting_eq_map "100" c hnd h1]
  have hkeys1 := keys_map_update F t (fun pl => pySet pl "100" c)
  have hnd1 : ((F.map fun p =>
      if p.1 = t then (t, pySet p.2 "100" c) else p).map Prod.fst).Nodup := by
    rw [hkeys1]; exact hnd
  rw [removeFromField_eq_map "100" _ hnd1, List.map_map]
  conv_rhs => rw [← List.map_id F]
  apply List.map_congr_left
  intro p hp
  by_cases e1 : p.1 = t
  · have : ((fun p => if containsKey p.2 "100" = true then (p.1, pyDel p.2 "100") else p) ∘
        (fun p => if p.1 = t then (t, pySet p.2 "100" c) else p)) p =
        (t, pyDel (pySet p.2 "100" c) "100") := by
      simp [Function.comp, e1, containsKey_pySet_self]
    rw [this, pyDel_pySet_cancel c (hno p hp)]
    rw [id_eq, ← e1]
  · simp [Function.comp, e1, hno p hp]

theorem documents_restore (D : PyDict Doc) (d : Doc) (h : containsKey D "100" = false) :
    (if containsKey (pySet D "100" d) "100" then pyDel (pySet D "100" d) "100"
     else pySet D "100" d) = D := by
  rw [if_pos]
  · rw [pyDel_pySet_cancel d h]
  · rw [containsKey_pySet_self]

/-!
## Spell-correction lemmas
-/

theorem spell_check_go_eq (sc : SpellCorrection) : ∀ (ts : List String) (acc : String),
    spell_check_go sc ts acc =
    match spell_check_tokens_join sc ts with
    | Except.error e => Except.error e
    | Except.ok s => Except.ok (acc ++ s) := by
  intro ts
  induction ts with
  | nil =>
    intro acc
    simp [spell_check_go, spell_check_tokens_join, String.append_empty]
  | cons w rest ih =>
    intro acc
    simp only [spell_check_go, spell_check_tokens_join, spell_check_token]
    by_cases h : containsKey sc.word_counter w
    · simp only [if_pos h, ih]
      cases spell_check_tokens_join sc rest with
      | error e => rfl
      | ok s => simp [String.append_assoc]
    · simp only [if_neg h]
      cases hf : find_nearest_words sc w with
      | error e => rfl
      | ok nearest =>
        by_cases hl : 0 < nearest.length
        · simp only [if_pos hl, ih]
          cases spell_check_tokens_join sc rest with
          | error e => rfl
          | ok s => simp [String.append_assoc]
        · simp only [if_neg hl, ih]
          cases spell_check_tokens_join sc rest with
          | error e => rfl
          | ok s => simp [String.append_assoc]

theorem find_nearest_ok_length {sc : SpellCorrection} {word : String}
    {cands : List String} (h : find_nearest_words sc word = Except.ok cands) :
    cands.length = 5 := by
  simp only [find_nearest_words] at h
  split at h
  · rename_i hle
    rw [Except.ok.injEq] at h
    subst h
    simp [List.length_take, Nat.min_eq_left hle]
  · cases h

theorem bestfold_const (word : String) : ∀ (l : List String),
    (∀ c ∈ l, jaccard_score (shingle_word word 2) (shingle_word c 2) = 0) →
    l.foldl (fun tp near =>
      let score := jaccard_score (shingle_word word 2) (shingle_word near 2)
      if tp.1 < score then (score, near) else tp) ((0 : ℚ), "") = ((0 : ℚ), "") := by
  intro l
  induction l with
  | nil => intro _; rfl
  | cons c rest ih =>
    intro hz
    rw [List.foldl_cons]
    have hc := hz c (List.mem_cons_self _ _)
    simp only [hc, lt_irrefl, if_neg (lt_irrefl (0 : ℚ))]
    exact ih (fun c2 h2 => hz c2 (List.mem_cons_of_mem _ h2))

theorem best_candidate_of_zero {word : String} {cands : List String}
    (hzero : ∀ c ∈ cands, jaccard_score (shingle_word word 2) (shingle_word c 2) = 0) :
    best_candidate word cands = "" :=
  congrArg Prod.snd (bestfold_const word cands hzero)

theorem jaccard_zero_of_empty_inter {A B : Finset String}
    (h : (A ∩ B).card = 0) : jaccard_score A B = 0 := by
  unfold jaccard_score
  split
  · rfl
  · rw [h]
    simp

theorem pySortedDesc_const (c : ℚ) : ∀ {l : List (String × ℚ)},
    (∀ p ∈ l, p.2 = c) → pySortedDesc l = l := by
  intro l
  induction l with
  | nil => intro _; rfl
  | cons x xs ih =>
    intro h
    rw [pySortedDesc, ih (fun p hp => h p (List.mem_cons_of_mem _ hp))]
    cases xs with
    | nil => rfl
    | cons y ys =>
      rw [pyInsertDesc, if_pos]
      rw [h y (by simp), h x (by simp)]

theorem find_nearest_fiveWord :
    find_nearest_words fiveWordSC "qq" = Except.ok ["ab", "cd", "ef", "gh", "ij"] := by
  have hv : fiveWordSC.all_shingled_words =
      [("ab", shingle_word "ab" 2), ("cd", shingle_word "cd" 2), ("ef", shingle_word "ef" 2),
       ("gh", shingle_word "gh" 2), ("ij", shingle_word "ij" 2)] := by decide
  have hmap : fiveWordSC.all_shingled_words.map
      (fun p => (p.1, jaccard_score (shingle_word "qq" 2) p.2)) =
      [("ab", 0), ("cd", 0), ("ef", 0), ("gh", 0), ("ij", 0)] := by
    rw [hv]
    simp only [List.map_cons, List.map_nil]
    rw [jaccard_zero_of_empty_inter (by decide), jaccard_zero_of_empty_inter (by decide),
      jaccard_zero_of_empty_inter (by decide), jaccard_zero_of_empty_inter (by decide),
      jaccard_zero_of_empty_inter (by decide)]
  simp only [find_nearest_words, hmap]
  rw [pySortedDesc_const 0 (by decide)]
  rfl

/-!
## Scorer lemmas
-/

theorem charAt_mk (l : List Char) (i : ℕ) : charAt (String.mk l) i = l.getD i 'x' := rfl

/-!
## The claims
-/

/-- C1, counterexample: a concrete session — seed one movie, crawl it,
crawl its related movie whose page links back to the first — reaches a
state whose `crawled` list holds two MovieRecords with the same id
"tt0000001": `crawl_page_info` dedups related links only against the
current frontier, not against `added_ids`. -/
theorem crawl_duplicate_id_reachable :
    Reachable crawlS4 ∧ ¬ (crawlS4.crawled.map MovieRecord.id).Nodup :=
  ⟨Reachable.step urlA [] (some ⟨[]⟩) crawlS3
    (Reachable.step urlB [] (some ⟨[urlA]⟩) crawlS2
      (Reachable.step urlA [] (some ⟨[urlB]⟩) crawlS1
        (Reachable.seed _ _ Reachable.init) (by decide))
      (by decide))
    (by decide),
   by decide⟩

/-- C1 (amended): in every state reachable from a fresh crawler via
`extract_top_250` and `crawl_page_info` steps, every crawled record's
id is in `added_ids`, every frontier URL's id is in `added_ids` (ids
enter `added_ids` together with their URL's enqueue), and in
particular the id of the next URL to be fetched is already in
`added_ids` before the fetch.  The uniqueness half of the original
claim is false (`crawl_duplicate_id_reachable`): `crawl_page_info`
checks only the current frontier, so an already-crawled id can be
re-enqueued and fetched again. -/
theorem crawl_ids_in_added_before_fetch :
    ∀ (st : CrawlState), Reachable st →
    (∀ r ∈ st.crawled, r.id ∈ st.added_ids) ∧
    (∀ u ∈ st.not_crawled, get_id_from_URL u ∈ st.added_ids) ∧
    (∀ (URL : String) (rest : List String), st.not_crawled = URL :: rest →
      get_id_from_URL URL ∈ st.added_ids) := by
  have main : ∀ (st : CrawlState), Reachable st → CrawlInv st := by
    intro st h
    induction h with
    | init => exact ⟨by simp [crawlInit], by simp [crawlInit]⟩
    | seed hrefs st _ ih => exact extract_top_250_preserves_inv hrefs st ih
    | step URL rest response st _ hnc ih =>
      cases response with
      | none =>
        refine ⟨ih.1, fun u hu => ih.2 u ?_⟩
        rw [hnc]
        exact List.mem_cons_of_mem _ hu
      | some page =>
        unfold crawl_page_info
        apply related_links_fold_preserves_inv
        constructor
        · intro r hr
          rcases List.mem_append.mp hr with hr | hr
          · exact ih.1 r hr
          · simp only [List.mem_singleton] at hr
            subst hr
            exact ih.2 URL (by rw [hnc]; exact List.mem_cons_self _ _)
        · intro u hu
          exact ih.2 u (by rw [hnc]; exact List.mem_cons_of_mem _ hu)
  intro st h
  refine ⟨(main st h).1, (main st h).2, fun URL rest hnc => (main st h).2 URL ?_⟩
  rw [hnc]
  exact List.mem_cons_self _ _

/-- C1, witness: the invariant instantiated at the state reached by
seeding the crawler with one top-chart anchor. -/
theorem crawl_ids_in_added_before_fetch_witness :
    (∀ r ∈ crawlS1.crawled, r.id ∈ crawlS1.added_ids) ∧
    (∀ u ∈ crawlS1.not_crawled, get_id_from_URL u ∈ crawlS1.added_ids) ∧
    (∀ (URL : String) (rest : List String), crawlS1.not_crawled = URL :: rest →
      get_id_from_URL URL ∈ crawlS1.added_ids) :=
  crawl_ids_in_added_before_fetch crawlS1 (Reachable.seed _ _ Reachable.init)

/-- C2: `calculate_DCG` is defined twice in the `Evaluation` class body;
the second definition shadows the one-argument helper, so its internal
call `self.calculate_DCG(relevance_scores)` is missing an argument and
raises a `TypeError` for any non-empty query list instead of returning
the mean per-query DCG.  The shadowed helper itself computes the
claimed discount: the first item undiscounted, the item at 0-based
index `i ≥ 1` contributing `relevance / (i + 1)`. -/
theorem calculate_DCG_raises_type_error :
    calculate_DCG [["a"]] [["a"]] =
      Except.error "TypeError: calculate_DCG missing 1 required positional argument"
    ∧ calculate_DCG_shadowed [1] = 1
    ∧ calculate_DCG_shadowed [1, 0, 1] = 1 + (0 : ℚ) / 2 + 1 / 3 := by
  refine ⟨rfl, rfl, ?_⟩
  simp [calculate_DCG_shadowed, List.range']
  norm_num

/-- C3, counterexample: from the empty starting index, adding the
synthetic record and removing id "100" does not restore the state:
remove keeps the emptied posting dicts (e.g. `stars` ends as
`[("tim", {}), ("henry", {})]`, not `{}`). -/
theorem add_remove_empty_state_not_restored :
    remove_document_from_index "100" (add_document_to_index dummy_document emptyIndexState) ≠
    emptyIndexState := by
  decide

/-- C3 (amended): `add_document_to_index` with the synthetic record
(id "100", stars [tim, henry], genres [drama, crime], summaries [good])
followed by `remove_document_from_index "100"` restores all four
indexes exactly, provided the starting state has duplicate-free term
keys, contains no entry for id "100" anywhere (not as a documents key
and not inside any posting), and already has the record's terms as
index keys ("tim"/"henry" in stars, "drama"/"crime" in genres, "good"
in summaries).  Without the last condition restoration fails, because
remove does not prune the posting dicts add created
(`add_remove_empty_state_not_restored`). -/
theorem add_remove_restores_on_seeded_state (S : IndexState)
    (hdoc : containsKey S.documents "100" = false)
    (hsnd : (S.stars.map Prod.fst).Nodup)
    (hgnd : (S.genres.map Prod.fst).Nodup)
    (hsumnd : (S.summaries.map Prod.fst).Nodup)
    (hs100 : ∀ p ∈ S.stars, containsKey p.2 "100" = false)
    (hg100 : ∀ p ∈ S.genres, containsKey p.2 "100" = false)
    (hsum100 : ∀ p ∈ S.summaries, containsKey p.2 "100" = false)
    (htim : containsKey S.stars "tim" = true)
    (hhenry : containsKey S.stars "henry" = true)
    (hdrama : containsKey S.genres "drama" = true)
    (hcrime : containsKey S.genres "crime" = true)
    (hgood : containsKey S.summaries "good" = true) :
    remove_document_from_index "100" (add_document_to_index dummy_document S) = S := by
  have hd : remove_document_from_index "100" (add_document_to_index dummy_document S) =
      ⟨if containsKey (pySet S.documents "100" dummy_document) "100" then
          pyDel (pySet S.documents "100" dummy_document) "100"
        else pySet S.documents "100" dummy_document,
       removeFromField "100" (addPosting "henry" "100" 1 (addPosting "tim" "100" 1 S.stars)),
       removeFromField "100" (addPosting "crime" "100" 1 (addPosting "drama" "100" 1 S.genres)),
       removeFromField "100" (addPostingOnce "good" "100" 1 S.summaries)⟩ := rfl
  rw [hd]
  rw [documents_restore S.documents dummy_document hdoc]
  rw [field_restore_two S.stars "tim" "henry" 1 1 hsnd hs100 (by decide) htim hhenry]
  rw [field_restore_two S.genres "drama" "crime" 1 1 hgnd hg100 (by decide) hdrama hcrime]
  rw [field_restore_once S.summaries "good" 1 hsumnd hsum100 hgood]

/-- C3, witness: the restoration applied to a concrete seeded index that
satisfies every precondition. -/
theorem add_remove_restores_on_seeded_state_witness :
    remove_document_from_index "100" (add_document_to_index dummy_document seededIndexState) =
    seededIndexState :=
  add_remove_restores_on_seeded_state seededIndexState (by decide) (by decide) (by decide)
    (by decide) (by decide) (by decide) (by decide) (by decide) (by decide) (by decide)
    (by decide) (by decide)

/-- C4, counterexample: with the one-term index `{a: {d1: 1}}`, `N = 3`,
query `[a]`, document method "nnn" and query method "ltn", the code's
score `1.1 * (1.1 * ln 3)` differs from the claim's
`1.1 * ((1 + ln 1.1) * ln 3)`: the code multiplies the raw offset
query-tf vector by idf, discarding the query-side first-letter 'l'
(logarithm) step. -/
theorem vsm_query_side_counterexample :
    get_vector_space_model_score vsmIndex 3 ["a"] [("a", 1)] "d1" "nnn" "ltn" ≠
    get_vector_space_model_score_claim vsmIndex 3 ["a"] [("a", 1)] "d1" "nnn" "ltn" := by
  have h1 : containsKey vsmIndex "a" = true := rfl
  have h2 : pyGetD vsmIndex "a" [] = [("d1", 1)] := rfl
  have h3 : containsKey [("d1", (1 : ℕ))] "d1" = true := rfl
  have h4 : pyGetD [("d1", (1 : ℕ))] "d1" 0 = 1 := rfl
  have h5 : get_idf vsmIndex 3 "a" = Real.log 3 := by
    unfold get_idf
    rw [h2]
    norm_num
  have hq : pyGetD [("a", (1 : ℕ))] "a" 0 = 1 := rfl
  have hcode : get_vector_space_model_score vsmIndex 3 ["a"] [("a", 1)] "d1" "nnn" "ltn" =
      (1 + 0.1) * ((1 + 0.1) * Real.log 3) := by
    simp only [get_vector_space_model_score, List.map_cons, List.map_nil, h1, h2, h3, h4,
      h5, hq, Bool.and_self, if_true, np_dot, List.zipWith_cons_cons, List.zipWith_nil_right,
      List.sum_cons, List.sum_nil, Nat.cast_one,
      if_pos (show charAt "nnn" 0 = 'n' from rfl),
      if_neg (show ¬ charAt "nnn" 1 = 't' from by decide),
      if_neg (show ¬ charAt "nnn" 2 = 'c' from by decide),
      if_neg (show ¬ charAt "ltn" 0 = 'n' from by decide),
      if_pos (show charAt "ltn" 1 = 't' from rfl),
      if_neg (show ¬ charAt "ltn" 2 = 'c' from by decide)]
    ring
  have hclaim :
      get_vector_space_model_score_claim vsmIndex 3 ["a"] [("a", 1)] "d1" "nnn" "ltn" =
      (1 + 0.1) * ((Real.log (1 + 0.1) + 1) * Real.log 3) := by
    simp only [get_vector_space_model_score_claim, List.map_cons, List.map_nil, h1, h2, h3,
      h4, h5, hq, Bool.and_self, if_true, np_dot, List.zipWith_cons_cons,
      List.zipWith_nil_right, List.sum_cons, List.sum_nil, Nat.cast_one,
      if_pos (show charAt "nnn" 0 = 'n' from rfl),
      if_neg (show ¬ charAt "nnn" 1 = 't' from by decide),
      if_neg (show ¬ charAt "nnn" 2 = 'c' from by decide),
      if_neg (show ¬ charAt "ltn" 0 = 'n' from by decide),
      if_pos (show charAt "ltn" 1 = 't' from rfl),
      if_neg (show ¬ charAt "ltn" 2 = 'c' from by decide)]
    ring
  rw [hcode, hclaim]
  have hlog3 : 0 < Real.log 3 := Real.log_pos (by norm_num)
  have hlog11 : Real.log (1 + 0.1) < 0.1 := by
    have h := Real.log_lt_sub_one_of_pos (show (0 : ℝ) < 1 + 0.1 by norm_num)
      (show (1 : ℝ) + 0.1 ≠ 1 by norm_num)
    linarith
  have hstep : (Real.log (1 + 0.1) + 1) * Real.log 3 < (1 + 0.1) * Real.log 3 := by
    apply mul_lt_mul_of_pos_right _ hlog3
    linarith
  have hfin : (1 + 0.1) * ((Real.log (1 + 0.1) + 1) * Real.log 3) <
      (1 + 0.1) * ((1 + 0.1) * Real.log 3) := by
    apply mul_lt_mul_of_pos_left hstep (by norm_num)
  exact ne_of_gt hfin

/-- C4 (amended): on the document side the claim is exact, and it is
exact on the query side as well whenever the query method's first
letter is 'n' or its second letter is not 't' — under either condition
the code agrees with the claim's reading everywhere.  But when the
query method's second letter is 't', the code multiplies the raw
+0.1-offset query-tf vector by idf, discarding the query-side
first-letter step entirely: the score does not depend on the
query-side first letter. -/
theorem vsm_second_letter_t_uses_raw_query_tf :
    (∀ (index : PyDict (PyDict ℕ)) (N : ℕ) (query : List String) (query_tfs : PyDict ℕ)
      (document_id : String) (document_method query_method : String),
      charAt query_method 0 = 'n' ∨ charAt query_method 1 ≠ 't' →
      get_vector_space_model_score index N query query_tfs document_id
        document_method query_method =
      get_vector_space_model_score_claim index N query query_tfs document_id
        document_method query_method)
    ∧ (∀ (index : PyDict (PyDict ℕ)) (N : ℕ) (query : List String) (query_tfs : PyDict ℕ)
      (document_id : String) (document_method : String) (a b q2 : Char),
      get_vector_space_model_score index N query query_tfs document_id
        document_method (String.mk [a, 't', q2]) =
      get_vector_space_model_score index N query query_tfs document_id
        document_method (String.mk [b, 't', q2])) := by
  constructor
  · intro index N query query_tfs document_id document_method query_method h
    rcases h with h | h
    · simp only [get_vector_space_model_score, get_vector_space_model_score_claim, h,
        if_true, if_pos]
    · simp only [get_vector_space_model_score, get_vector_space_model_score_claim,
        if_neg h]
  · intro index N query query_tfs document_id document_method a b q2
    simp only [get_vector_space_model_score, charAt_mk, List.getD, List.get?,
      Option.getD_some, if_true]

/-- C4, witness: the two halves of the amended claim at concrete inputs:
for query method "ntn" the code equals the claim's reading, and for the
query methods "ltn" and "xtn" (second letter 't') the score ignores the
first letter. -/
theorem vsm_second_letter_witness :
    get_vector_space_model_score vsmIndex 3 ["a"] [("a", 1)] "d1" "nnn" "ntn" =
      get_vector_space_model_score_claim vsmIndex 3 ["a"] [("a", 1)] "d1" "nnn" "ntn"
    ∧ get_vector_space_model_score vsmIndex 3 ["a"] [("a", 1)] "d1" "nnn"
        (String.mk ['l', 't', 'n']) =
      get_vector_space_model_score vsmIndex 3 ["a"] [("a", 1)] "d1" "nnn"
        (String.mk ['x', 't', 'n']) :=
  ⟨vsm_second_letter_t_uses_raw_query_tf.1 vsmIndex 3 ["a"] [("a", 1)] "d1" "nnn" "ntn"
      (Or.inl rfl),
   vsm_second_letter_t_uses_raw_query_tf.2 vsmIndex 3 ["a"] [("a", 1)] "d1" "nnn"
      'l' 'x' 'n'⟩

/-- C5: `get_okapi_bm25_score` with its constants `k = 1.2`, `b = 0.75`:
for a single query term whose tf in the document is 2 and whose
document length equals the (positive) average field length, the score
is exactly `1.375 * idf(term)` — the instance
`idf * 2 * 2.2 / (2 + 1.2 * (1 - 0.75 + 0.75)) = 1.375 * idf` of the
accumulated formula. -/
theorem bm25_single_term_score (index : PyDict (PyDict ℕ)) (N : ℕ) (t d : String)
    (lens : PyDict ℝ) (avg : ℝ) (pl : PyDict ℕ)
    (hpl : pyGet? index t = some pl) (hfreq : pyGet? pl d = some 2)
    (hlen : pyGet? lens d = some avg) (havg : 0 < avg) :
    get_okapi_bm25_score index N [t] d avg lens = 1.375 * get_idf index N t := by
  have hct : containsKey index t = true := containsKey_of_pyGet? hpl
  have hgd : pyGetD index t [] = pl := by rw [pyGetD, hpl]; rfl
  have hcd : containsKey pl d = true := containsKey_of_pyGet? hfreq
  have hfd : pyGetD pl d 0 = 2 := by rw [pyGetD, hfreq]; rfl
  have hld : pyGetD lens d 0 = avg := by rw [pyGetD, hlen]; rfl
  unfold get_okapi_bm25_score
  simp only [List.foldl_cons, List.foldl_nil, hgd, hct, hcd, hfd, hld, Bool.and_self,
    if_true, Nat.cast_ofNat]
  rw [show (0.75 : ℝ) * avg / avg = 0.75 * (avg / avg) from by ring,
    div_self (ne_of_gt havg), zero_add]
  norm_num
  ring_nf

/-- C5, witness: the formula applied to a concrete one-term index with
tf 2, document length 3 and average length 3. -/
theorem bm25_single_term_score_witness :
    get_okapi_bm25_score [("t", [("d", 2)])] 4 ["t"] "d" 3 [("d", 3)] =
    1.375 * get_idf [("t", [("d", 2)])] 4 "t" :=
  bm25_single_term_score [("t", [("d", 2)])] 4 "t" "d" [("d", 3)] 3 [("d", 2)]
    rfl rfl rfl (by norm_num)

/-- C6, counterexample: with the non-empty vocabulary {hello, world},
`spell_check "hello world"` returns "helloworld" — in-vocabulary tokens
are appended with no separator at all, not with a leading space before
each token as the claim states (which would give " hello world"). -/
theorem spell_check_in_vocab_no_leading_space :
    spell_check helloWorldSC "hello world" = Except.ok "helloworld"
    ∧ ("helloworld" : String) ≠ " hello world" :=
  ⟨rfl, by decide⟩

/-- C6 (amended): for every vocabulary and query, `spell_check` returns
the concatenation of per-token outputs in which an in-vocabulary token
is appended with no separator, and each out-of-vocabulary token
contributes a leading space followed by its replacement (its best
candidate, or the token itself when there are no candidates); only
out-of-vocabulary tokens get a leading space. -/
theorem spell_check_concatenates_per_token_outputs (sc : SpellCorrection) (query : String) :
    spell_check sc query = spell_check_spec sc query := by
  rw [spell_check, spell_check_spec, spell_check_go_eq]
  cases spell_check_tokens_join sc (word_tokenize (pyLower query)) with
  | error e => rfl
  | ok s => simp [String.empty_append]

/-- C7: with an empty corpus the vocabulary is empty, and for an
out-of-vocabulary token `find_nearest_words` evaluates
`sorted_words[0]` on an empty list, so `spell_check` raises an
`IndexError` instead of keeping the token as-is (the keep-as-is branch
exists in the source but is unreachable). -/
theorem spell_check_empty_vocab_index_error :
    spell_check emptySC "hello" = Except.error "IndexError: list index out of range" := rfl

/-- C8: if any document's `stars` field is Python `None`, `index_stars`
returns immediately with whatever star postings were built so far for
the whole corpus: the index over any batch `pre ++ d :: post` with
`d.stars = None` equals the index over `pre` alone, abandoning `post`
entirely. -/
theorem index_stars_truncates_at_missing_stars (pre : List RawDoc) (d : RawDoc)
    (post : List RawDoc) (hd : d.stars = none) :
    index_stars (pre ++ d :: post) = index_stars pre := by
  simp [index_stars, index_stars_go_append d hd post pre]

/-- C8, witness: a concrete three-document batch whose middle document
has no stars: the third document's star "c" is never indexed. -/
theorem index_stars_truncates_witness :
    index_stars [⟨"1", some ["a b"]⟩, ⟨"2", none⟩, ⟨"3", some ["c"]⟩] =
      index_stars [⟨"1", some ["a b"]⟩]
    ∧ index_stars [⟨"1", some ["a b"]⟩, ⟨"2", none⟩, ⟨"3", some ["c"]⟩] =
      [("a", [("1", 1)]), ("b", [("1", 1)])] :=
  ⟨index_stars_truncates_at_missing_stars [⟨"1", some ["a b"]⟩] ⟨"2", none⟩
      [⟨"3", some ["c"]⟩] rfl,
   by decide⟩

/-- C9: when an out-of-vocabulary query token has Jaccard similarity 0
with every one of its 5 nearest candidates, the best-candidate fold
never improves on its initial `(0, "")`, so `spell_check` replaces the
token with the empty string and only its separator space remains. -/
theorem spell_check_zero_similarity_drops_token (sc : SpellCorrection) (query w : String)
    (cands : List String)
    (htok : word_tokenize (pyLower query) = [w])
    (hoov : containsKey sc.word_counter w = false)
    (hnear : find_nearest_words sc w = Except.ok cands)
    (hzero : ∀ c ∈ cands, jaccard_score (shingle_word w 2) (shingle_word c 2) = 0) :
    spell_check sc query = Except.ok " " := by
  rw [spell_check, htok]
  simp only [spell_check_go, hoov, Bool.false_eq_true, if_false, hnear]
  have hlen : 0 < cands.length := by rw [find_nearest_ok_length hnear]; norm_num
  rw [if_pos hlen, best_candidate_of_zero hzero]
  simp [spell_check_go, String.empty_append, String.append_empty]

/-- C9, witness: over the vocabulary {ab, cd, ef, gh, ij}, the query
"qq" shares no 2-gram with any candidate and comes back as just a
space. -/
theorem spell_check_zero_similarity_witness :
    spell_check fiveWordSC "qq" = Except.ok " " :=
  spell_check_zero_similarity_drops_token fiveWordSC "qq" "qq" ["ab", "cd", "ef", "gh", "ij"]
    (by decide) (by decide) find_nearest_fiveWord
    (by
      intro c hc
      simp only [List.mem_cons, List.not_mem_nil, or_false] at hc
      rcases hc with rfl | rfl | rfl | rfl | rfl <;>
        exact jaccard_zero_of_empty_inter (by decide))

/-- C10: `MinHashLSH.shingle_document` ignores its `k` parameter: for
every document and every `k` it returns the set of adjacent
whitespace-token bigrams, and a document with fewer than two tokens
yields the empty shingle set. -/
theorem shingle_document_ignores_k (document : String) (k k2 : ℕ) :
    shingle_document document k =
      (List.zipWith (fun a b => a ++ " " ++ b) (pySplitWs document)
        (pySplitWs document).tail).toFinset
    ∧ shingle_document document k = shingle_document document k2
    ∧ ((pySplitWs document).length < 2 → shingle_document document k = ∅) := by
  have hbigrams : ∀ (l : List String),
      (List.range (l.length - 1)).map (fun i => l.getD i "" ++ " " ++ l.getD (i + 1) "") =
      List.zipWith (fun a b => a ++ " " ++ b) l l.tail := by
    intro l
    induction l with
    | nil => simp
    | cons a t ih =>
      cases t with
      | nil => simp
      | cons b t2 =>
        simp only [List.tail_cons] at ih
        simp only [List.length_cons, Nat.add_sub_cancel, List.range_succ_eq_map,
          List.map_cons, List.map_map, List.tail_cons, List.zipWith_cons_cons]
        refine congrArg₂ (· :: ·) rfl ?_
        rw [← ih]
        simp only [List.length_cons, Nat.add_sub_cancel]
        exact List.map_congr_left (fun i _ => rfl)
  have hmain : shingle_document document k =
      (List.zipWith (fun a b => a ++ " " ++ b) (pySplitWs document)
        (pySplitWs document).tail).toFinset :=
    congrArg List.toFinset (hbigrams (pySplitWs document))
  refine ⟨hmain, rfl, fun h => ?_⟩
  rw [hmain]
  cases hl : pySplitWs document with
  | nil => simp
  | cons x xs =>
    cases xs with
    | nil => simp
    | cons y ys => rw [hl] at h; simp at h; omega
